import Mathlib

/-!
Verification of the relay/fan-out engine in `src/normal-bot/normal_bot.py`
(functions `receive_message`, `download_attachment`, `send_to_discord_channel`,
`send_to_discord_channels`) against the repository specification.

The Python code is shallowly embedded as executable Lean functions over
`List Char` (strings), `List Nat` (byte buffers) and explicit oracle
functions for the external effects:

* `http : List Char → Option Bytes` models one `session.get(url)` together
  with its status check (`none` = non-200 status or transport error);
* `buildEmbed : ES → Option E` models `create_discord_embed` together with
  its enclosing try/except (`none` = the embed raised and is dropped);
* `resolve : Nat → Bool` models `client.get_channel` (false = not found);
* `fail : Nat → Nat → Bool` models whether the `i`-th `channel.send` call to
  a given channel raises a transport error.
-/

set_option maxRecDepth 40000

namespace NormalBot

/-- In-memory attachment bytes (the contents of the `BytesIO` buffer). -/
abbrev Bytes := List Nat

/-- Models Python `str.split(sep)` for a one-character separator. -/
def splitOnChar (sep : Char) : List Char → List (List Char)
  | [] => [[]]
  | c :: r =>
    match splitOnChar sep r with
    | s :: tail => if c = sep then [] :: s :: tail else (c :: s) :: tail
    | [] => [[c]]

/-! ### Timestamp normalization (lines 110-114) -/

/-- The fields of a parsed timestamp that the display format uses. -/
structure PyDateTime where
  year : Nat
  month : Nat
  day : Nat
  hour : Nat
  minute : Nat
  second : Nat
deriving DecidableEq

def digitVal (c : Char) : Nat := c.toNat - 48

/-- Parse exactly `n` ASCII digits, accumulating their value. -/
def parseNDigits : Nat → Nat → List Char → Option (Nat × List Char)
  | acc, 0, l => some (acc, l)
  | _, _ + 1, [] => none
  | acc, n + 1, c :: r =>
    if c.isDigit then parseNDigits (acc * 10 + digitVal c) n r else none

def expectChar (c : Char) : List Char → Option (List Char)
  | [] => none
  | x :: r => if x = c then some r else none

def daysInMonth (y m : Nat) : Nat :=
  if m = 2 then (if (y % 4 = 0 ∧ y % 100 ≠ 0) ∨ y % 400 = 0 then 29 else 28)
  else if m = 4 ∨ m = 6 ∨ m = 9 ∨ m = 11 then 30 else 31

/-- Skip an optional fractional-seconds part `.digits`. -/
def skipFrac : List Char → Option (List Char)
  | '.' :: r =>
    if r.takeWhile Char.isDigit = [] then none
    else some (r.dropWhile Char.isDigit)
  | l => some l

/-- Validate the tail of a `±HH:MM[:SS]` UTC-offset suffix. -/
def parseOffsetTail (r : List Char) : Option Unit := do
  let (oh, r) ← parseNDigits 0 2 r
  let r ← expectChar ':' r
  let (om, r) ← parseNDigits 0 2 r
  guard (oh ≤ 23 ∧ om ≤ 59)
  match r with
  | [] => pure ()
  | ':' :: r2 => do
    let (os, r3) ← parseNDigits 0 2 r2
    guard (os ≤ 59)
    guard (r3 = [])
    pure ()
  | _ => none

/-- Models CPython `datetime.fromisoformat`, restricted to the calendar forms the
relay receives: `YYYY-MM-DD`, optionally followed by a one-character separator
and `HH:MM[:SS[.digits]]`, optionally followed by a `+`/`-` UTC offset.
Returns `none` exactly where CPython raises `ValueError` on these forms. -/
def fromisoformat (l : List Char) : Option PyDateTime := do
  let (y, r) ← parseNDigits 0 4 l
  let r ← expectChar '-' r
  let (mo, r) ← parseNDigits 0 2 r
  let r ← expectChar '-' r
  let (d, r) ← parseNDigits 0 2 r
  guard (1 ≤ mo ∧ mo ≤ 12)
  guard (1 ≤ d ∧ d ≤ daysInMonth y mo)
  match r with
  | [] => pure ⟨y, mo, d, 0, 0, 0⟩
  | _ :: r => do
    let (h, r) ← parseNDigits 0 2 r
    let r ← expectChar ':' r
    let (mi, r) ← parseNDigits 0 2 r
    guard (h ≤ 23 ∧ mi ≤ 59)
    match r with
    | [] => pure ⟨y, mo, d, h, mi, 0⟩
    | ':' :: r => do
      let (s, r) ← parseNDigits 0 2 r
      guard (s ≤ 59)
      let r ← skipFrac r
      match r with
      | [] => pure ⟨y, mo, d, h, mi, s⟩
      | '+' :: r | '-' :: r => do
        let _ ← parseOffsetTail r
        pure ⟨y, mo, d, h, mi, s⟩
      | _ => none
    | '+' :: r | '-' :: r => do
      let _ ← parseOffsetTail r
      pure ⟨y, mo, d, h, mi, 0⟩
    | _ => none

def monthAbbrevLower : Nat → List Char
  | 1 => "jan".data
  | 2 => "feb".data
  | 3 => "mar".data
  | 4 => "apr".data
  | 5 => "may".data
  | 6 => "jun".data
  | 7 => "jul".data
  | 8 => "aug".data
  | 9 => "sep".data
  | 10 => "oct".data
  | 11 => "nov".data
  | 12 => "dec".data
  | _ => []

def pad2 (n : Nat) : List Char := [Char.ofNat (48 + n / 10 % 10), Char.ofNat (48 + n % 10)]

def hour12 (h : Nat) : Nat := if h % 12 = 0 then 12 else h % 12

/-- Models `dt.strftime("%b: %d %I:%M%p").lower()` in the C locale. -/
def strftimeDisplay (dt : PyDateTime) : List Char :=
  monthAbbrevLower dt.month ++ ": ".data ++ pad2 dt.day ++ " ".data ++
    pad2 (hour12 dt.hour) ++ ":".data ++ pad2 dt.minute ++
    (if dt.hour < 12 then "am".data else "pm".data)

/-- Models `timestamp.replace('Z', '+00:00')` (Python `str.replace` rewrites
every occurrence of the pattern). -/
def replaceZ : List Char → List Char
  | [] => []
  | 'Z' :: r => "+00:00".data ++ replaceZ r
  | c :: r => c :: replaceZ r

/-- Lines 110-114: try `datetime.fromisoformat(timestamp.replace('Z','+00:00'))`
and format it; on any exception fall back to the raw string. -/
def pyFormattedTime (ts : List Char) : List Char :=
  match fromisoformat (replaceZ ts) with
  | some dt => strftimeDisplay dt
  | none => ts

/-! ### Custom-emoji rewrite (line 118): `re.sub(..., content)` -/

/-- A regex word character (`\w`), restricted to ASCII. -/
def isWordChar (c : Char) : Bool := c.isAlpha || c.isDigit || c = '_'

/-- Match the regex part `a?:` at the head of the list (deterministic: greedy
`a?` followed by a mandatory `:` never needs backtracking). -/
def afterColon : List Char → Option (List Char)
  | [] => none
  | c :: r =>
    if c = ':' then some r
    else if c = 'a' then
      match r with
      | [] => none
      | c2 :: r2 => if c2 = ':' then some r2 else none
    else none

/-- Try to match the body (everything after the `<`) of `<a?:(\w+):\d+>` at the
head of `l`; on success return the captured name and the remaining input. The
greedy runs `\w+` and `\d+` are each followed by a character outside their own
class (`:` resp. `>`), so maximal-munch scanning is exact. -/
def parseTagBody (l : List Char) : Option (List Char × List Char) :=
  match afterColon l with
  | none => none
  | some r =>
    match r.dropWhile isWordChar with
    | ':' :: r3 =>
      if r.takeWhile isWordChar = [] then none
      else
        match r3.dropWhile Char.isDigit with
        | '>' :: r5 =>
          if r3.takeWhile Char.isDigit = [] then none
          else some (r.takeWhile isWordChar, r5)
        | _ => none
    | _ => none

/-- Fuelled left-to-right scan-and-substitute; with fuel at least the input
length this is exactly `re.sub` for the emoji pattern (leftmost match,
non-overlapping, continue after the match). -/
def reSubFuel : Nat → List Char → List Char
  | 0, l => l
  | _ + 1, [] => []
  | fuel + 1, c :: rest =>
    if c = '<' then
      match parseTagBody rest with
      | some (nm, rest2) => ':' :: (nm ++ ':' :: reSubFuel fuel rest2)
      | none => c :: reSubFuel fuel rest
    else c :: reSubFuel fuel rest

/-- Line 118: `re.sub(r'<a?:(\w+):\d+>', r':\1:', content)` (ASCII `\w`/`\d`). -/
def reSub (l : List Char) : List Char := reSubFuel l.length l

/-- A custom-emoji tag `<a?:name:id>` as a character list. -/
def emojiTag (anim : Bool) (nm num : List Char) : List Char :=
  '<' :: ((if anim then ['a'] else []) ++ ':' :: (nm ++ ':' :: (num ++ ['>'])))

/-! ### Attachment download (lines 157-177) -/

/-- An inbound attachment reference: dict form (url/filename keys may be
absent) or bare URL string form. -/
inductive Attachment where
  | dict (url : Option (List Char)) (filename : Option (List Char))
  | str (url : List Char)
deriving DecidableEq

/-- A fetched file: the filename passed to `discord.File` and the bytes of its
`BytesIO` buffer. -/
structure DFile where
  filename : List Char
  data : Bytes
deriving DecidableEq

/-- `attachment.get('url')` resp. the bare string itself. -/
def attachmentUrl : Attachment → Option (List Char)
  | .dict u _ => u
  | .str u => some u

/-- `attachment.get('filename', 'attachment')` resp.
`url.split('/')[-1].split('?')[0]`. -/
def attachmentFilename : Attachment → List Char
  | .dict _ f => f.getD "attachment".data
  | .str u => (splitOnChar '?' ((splitOnChar '/' u).getLastD [])).headD []

/-- Lines 157-177: one download. A missing url, a non-200 status or a transport
error (all folded into the `http` oracle) yields `None`; otherwise a
`discord.File` wrapping the downloaded bytes. -/
def download_attachment (http : List Char → Option Bytes) (att : Attachment) : Option DFile :=
  match attachmentUrl att with
  | none => none
  | some url =>
    match http url with
    | some bs => some ⟨attachmentFilename att, bs⟩
    | none => none

/-- Lines 233-239: the download loop of `send_to_discord_channels`. Returns the
successfully fetched files in reference order, together with the number of
`session.get` calls issued (one per reference that has a url). -/
def downloadAll (http : List Char → Option Bytes) : List Attachment → List DFile × Nat
  | [] => ([], 0)
  | a :: rest =>
    let r := downloadAll http rest
    let n := if (attachmentUrl a).isSome then 1 else 0
    match download_attachment http a with
    | some f => (f :: r.1, n + r.2)
    | none => (r.1, n + r.2)

/-! ### Batch planning (lines 180-221): `send_to_discord_channel` -/

/-- One outbound `channel.send` call: optional text content, files, embeds. -/
structure Batch (F E : Type) where
  text : Option (List Char)
  files : List F
  embeds : List E
deriving DecidableEq

/-- Fuelled grouping into runs of 10 (`files[i:i+10]` / `remaining[i:i+10]`). -/
def chunksFuel {α : Type} : Nat → List α → List (List α)
  | 0, _ => []
  | _ + 1, [] => []
  | fuel + 1, a :: rest => ((a :: rest).take 10) :: chunksFuel fuel (rest.drop 9)

/-- Successive groups of at most 10 elements, in order. -/
def chunks10 {α : Type} (l : List α) : List (List α) := chunksFuel l.length l

/-- Lines 183-186: `msg_to_send = message[:1997] + "..." if len(message) > 2000
else message`. Note this truncates; it does not split into several chunks. -/
def truncateMsg (m : List Char) : List Char :=
  if m.length > 2000 then m.take 1997 ++ "...".data else m

/-- `msg_to_send if msg_to_send.strip() else None`. -/
def contentOpt (m : List Char) : Option (List Char) :=
  if m.all (fun c => c.isWhitespace) then none else some m

/-- Lines 180-221: the ordered sequence of `channel.send` calls one invocation
of `send_to_discord_channel` issues when none of them raises. -/
def planBatches {F E : Type} (message : List Char) (files : List F) (embeds : List E) :
    List (Batch F E) :=
  let msg := truncateMsg message
  if files.isEmpty && embeds.isEmpty then
    [⟨some msg, [], []⟩]
  else
    (if files.length ≤ 10 then
      [⟨contentOpt msg, files, embeds.take 10⟩]
    else
      ⟨contentOpt msg, files.take 10, embeds.take 10⟩ ::
        (chunks10 (files.drop 10)).map (fun fs => ⟨none, fs, []⟩)) ++
    (chunks10 (embeds.drop 10)).map (fun es => ⟨none, [], es⟩)

/-! ### Dispatch (lines 180-224 and 227-267) -/

/-- The sends actually attempted given that the whole loop sits in a single
try/except: calls are issued in order and the first one that raises (at index
`i` with `fail i = true`) is the last one attempted. -/
def sendsFrom {β : Type} (fail1 : Nat → Bool) : Nat → List β → List β
  | _, [] => []
  | i, b :: rest => b :: (if fail1 i then [] else sendsFrom fail1 (i + 1) rest)

/-- Lines 180-224: `send_to_discord_channel` with its try/except. Returns the
batches whose `channel.send` was attempted (the exception of the failing send,
if any, is caught and logged after the function gives up). -/
def send_to_discord_channel {F E : Type} (fail1 : Nat → Bool) (message : List Char)
    (files : List F) (embeds : List E) : List (Batch F E) :=
  sendsFrom fail1 0 (planBatches message files embeds)

/-- Observable outcome of one `send_to_discord_channels` call: how many
`session.get` fetches were issued, and per resolved channel the batches whose
send was attempted. -/
structure RelayResult (E : Type) where
  fetchAttempts : Nat
  perChannel : List (Nat × List (Batch DFile E))
deriving DecidableEq

/-- Lines 227-267: download all attachments once, build all embeds once, then
for each configured channel id resolve it (skipping unresolved ones) and run
`send_to_discord_channel`. Per-channel file re-wrapping (lines 258-265) reuses
the same underlying `BytesIO` buffer, so each channel sends the same bytes;
the model therefore passes the same `DFile` values to every channel. -/
def send_to_discord_channels {ES E : Type} (http : List Char → Option Bytes)
    (buildEmbed : ES → Option E) (resolve : Nat → Bool) (fail : Nat → Nat → Bool)
    (channels : List Nat) (message : List Char) (attachments : List Attachment)
    (embeds : List ES) : RelayResult E :=
  if channels.isEmpty then ⟨0, []⟩
  else
    let dl := downloadAll http attachments
    let builtEmbeds := embeds.filterMap buildEmbed
    ⟨dl.2,
     (channels.filter (fun c => resolve c)).map
       (fun c => (c, send_to_discord_channel (fail c) message dl.1 builtEmbeds))⟩

/-! ### Ingestion (lines 96-154): `receive_message` -/

/-- The JSON-shaped inbound record; every field may be absent. -/
structure RawEvent (ES : Type) where
  timestamp : Option (List Char)
  channel_name : Option (List Char)
  author : Option (List Char)
  content : Option (List Char)
  attachments : Option (List Attachment)
  embeds : Option (List ES)

/-- `data.get('timestamp', 'N/A')`. -/
def eventTimestamp {ES : Type} (ev : RawEvent ES) : List Char := ev.timestamp.getD "N/A".data

/-- `data.get('channel_name', 'Unknown')`. -/
def eventChannelName {ES : Type} (ev : RawEvent ES) : List Char :=
  ev.channel_name.getD "Unknown".data

/-- `data.get('author', 'Unknown')`. -/
def eventAuthor {ES : Type} (ev : RawEvent ES) : List Char := ev.author.getD "Unknown".data

/-- `data.get('content', '')`. -/
def eventContent {ES : Type} (ev : RawEvent ES) : List Char := ev.content.getD []

/-- `data.get('attachments', [])`. -/
def eventAttachments {ES : Type} (ev : RawEvent ES) : List Attachment :=
  ev.attachments.getD []

/-- `data.get('embeds', [])`. -/
def eventEmbeds {ES : Type} (ev : RawEvent ES) : List ES := ev.embeds.getD []

/-- Line 121: the f-string handed to dispatch. -/
def formattedMessage {ES : Type} (ev : RawEvent ES) : List Char :=
  "`[".data ++ pyFormattedTime (eventTimestamp ev) ++ "] #".data ++
    eventChannelName ev ++ "`\n".data ++ reSub (eventContent ev)

/-- Lines 144-148: if any output channels are configured, schedule
`send_to_discord_channels(formatted_message, attachments, embeds)`. -/
def receiveMessageRelay {ES E : Type} (http : List Char → Option Bytes)
    (buildEmbed : ES → Option E) (resolve : Nat → Bool) (fail : Nat → Nat → Bool)
    (channels : List Nat) (ev : RawEvent ES) : RelayResult E :=
  if channels.isEmpty then ⟨0, []⟩
  else
    send_to_discord_channels http buildEmbed resolve fail channels
      (formattedMessage ev) (eventAttachments ev) (eventEmbeds ev)

/-! ### Helper lemmas -/

theorem length_dropWhile_le' (p : Char → Bool) : ∀ l : List Char, (l.dropWhile p).length ≤ l.length := by
  intro l
  induction l with
  | nil => simp [List.dropWhile]
  | cons c t ih =>
    rw [List.dropWhile_cons]
    by_cases h : p c = true
    · simp only [h, if_true, List.length_cons]
      exact Nat.le_succ_of_le ih
    · simp [h]

theorem takeWhile_append_all (p : Char → Bool) (xs : List Char) (c : Char) (ys : List Char)
    (h : ∀ x ∈ xs, p x = true) (hc : p c = false) :
    ((xs ++ c :: ys).takeWhile p) = xs := by
  induction xs with
  | nil => simp [List.takeWhile_cons, hc]
  | cons a t ih =>
    have ha : p a = true := h a (List.mem_cons_self a t)
    simp only [List.cons_append, List.takeWhile_cons, ha, if_true]
    rw [ih (fun x hx => h x (List.mem_cons_of_mem a hx))]

theorem dropWhile_append_all (p : Char → Bool) (xs : List Char) (c : Char) (ys : List Char)
    (h : ∀ x ∈ xs, p x = true) (hc : p c = false) :
    ((xs ++ c :: ys).dropWhile p) = c :: ys := by
  induction xs with
  | nil => simp [List.dropWhile_cons, hc]
  | cons a t ih =>
    have ha : p a = true := h a (List.mem_cons_self a t)
    simp only [List.cons_append, List.dropWhile_cons, ha, if_true]
    exact ih (fun x hx => h x (List.mem_cons_of_mem a hx))

theorem afterColon_length : ∀ {l r : List Char}, afterColon l = some r → r.length ≤ l.length := by
  intro l r h
  cases l with
  | nil => cases h
  | cons c t =>
    simp only [afterColon] at h
    by_cases hc : c = ':'
    · rw [if_pos hc] at h
      cases h
      simp
    · rw [if_neg hc] at h
      by_cases ha : c = 'a'
      · rw [if_pos ha] at h
        cases t with
        | nil => cases h
        | cons c2 t2 =>
          by_cases hc2 : c2 = ':'
          · simp only [hc2, if_pos rfl] at h
            cases h
            simp only [List.length_cons]
            omega
          · simp only [if_neg hc2] at h
            cases h
      · rw [if_neg ha] at h
        cases h

theorem parseTagBody_length_le {l : List Char} {nm r5 : List Char}
    (h : parseTagBody l = some (nm, r5)) : r5.length ≤ l.length := by
  unfold parseTagBody at h
  split at h
  · cases h
  case _ r heq =>
    have hr : r.length ≤ l.length := afterColon_length heq
    split at h
    case _ r3 heq3 =>
      have hr3 : r3.length + 1 ≤ r.length := by
        have hh := length_dropWhile_le' isWordChar r
        rw [heq3] at hh
        simpa using hh
      split at h
      · cases h
      · split at h
        case _ r5' heq5 =>
          have hr5 : r5'.length + 1 ≤ r3.length := by
            have hh := length_dropWhile_le' Char.isDigit r3
            rw [heq5] at hh
            simpa using hh
          split at h
          · cases h
          · cases h
            omega
        · cases h
    · cases h

theorem reSubFuel_congr : ∀ (f1 f2 : Nat) (l : List Char), l.length ≤ f1 → l.length ≤ f2 →
    reSubFuel f1 l = reSubFuel f2 l := by
  intro f1
  induction f1 with
  | zero =>
    intro f2 l h1 _
    have hl : l = [] := List.length_eq_zero.mp (Nat.le_zero.mp h1)
    subst hl
    cases f2 <;> rfl
  | succ f ih =>
    intro f2 l h1 h2
    cases l with
    | nil => cases f2 <;> rfl
    | cons c rest =>
      cases f2 with
      | zero => simp at h2
      | succ g =>
        have hrest1 : rest.length ≤ f := by simpa using h1
        have hrest2 : rest.length ≤ g := by simpa using h2
        simp only [reSubFuel]
        by_cases hc : c = '<'
        · simp only [hc, if_true]
          cases hpt : parseTagBody rest with
          | some p =>
            obtain ⟨nm, rest2⟩ := p
            have hlen := parseTagBody_length_le hpt
            simp only [hpt]
            rw [ih g rest2 (le_trans hlen hrest1) (le_trans hlen hrest2)]
          | none =>
            simp only [hpt]
            rw [ih g rest hrest1 hrest2]
        · simp only [if_neg hc]
          rw [ih g rest hrest1 hrest2]

theorem reSub_cons_ne {c : Char} (l : List Char) (hc : c ≠ '<') :
    reSub (c :: l) = c :: reSub l := by
  unfold reSub
  simp [reSubFuel, hc]

theorem reSub_of_not_mem : ∀ (s : List Char), '<' ∉ s → reSub s = s := by
  intro s
  induction s with
  | nil => intro _; rfl
  | cons c t ih =>
    intro h
    have hc : c ≠ '<' := fun hh => h (hh ▸ List.mem_cons_self c t)
    have ht : '<' ∉ t := fun hh => h (List.mem_cons_of_mem c hh)
    rw [reSub_cons_ne t hc, ih ht]

theorem reSub_append_of_not_mem (pre s : List Char) (h : '<' ∉ pre) :
    reSub (pre ++ s) = pre ++ reSub s := by
  induction pre with
  | nil => simp
  | cons c t ih =>
    have hc : c ≠ '<' := fun hh => h (hh ▸ List.mem_cons_self c t)
    have ht : '<' ∉ t := fun hh => h (List.mem_cons_of_mem c hh)
    simp only [List.cons_append]
    rw [reSub_cons_ne (t ++ s) hc, ih ht]

theorem parseTagBody_spec (anim : Bool) (nm num post : List Char) (hnm : nm ≠ [])
    (hw : ∀ c ∈ nm, isWordChar c = true) (hnum : num ≠ [])
    (hd : ∀ c ∈ num, Char.isDigit c = true) :
    parseTagBody ((if anim then ['a'] else []) ++ ':' :: (nm ++ ':' :: (num ++ '>' :: post)))
      = some (nm, post) := by
  have hafter :
      afterColon ((if anim then ['a'] else []) ++ ':' :: (nm ++ ':' :: (num ++ '>' :: post)))
        = some (nm ++ ':' :: (num ++ '>' :: post)) := by
    cases anim <;> simp [afterColon]
  unfold parseTagBody
  rw [hafter]
  simp [takeWhile_append_all isWordChar nm ':' _ hw (by decide),
    dropWhile_append_all isWordChar nm ':' _ hw (by decide),
    takeWhile_append_all Char.isDigit num '>' post hd (by decide),
    dropWhile_append_all Char.isDigit num '>' post hd (by decide),
    hnm, hnum]

theorem reSub_tag (anim : Bool) (nm num post : List Char) (hnm : nm ≠ [])
    (hw : ∀ c ∈ nm, isWordChar c = true) (hnum : num ≠ [])
    (hd : ∀ c ∈ num, Char.isDigit c = true) :
    reSub (emojiTag anim nm num ++ post) = ':' :: (nm ++ ':' :: reSub post) := by
  have hpt : parseTagBody
      (((if anim then ['a'] else []) ++ ':' :: (nm ++ ':' :: (num ++ ['>']))) ++ post)
        = some (nm, post) := by
    have h := parseTagBody_spec anim nm num post hnm hw hnum hd
    have hshape : ((if anim then ['a'] else []) ++ ':' :: (nm ++ ':' :: (num ++ ['>']))) ++ post
        = (if anim then ['a'] else []) ++ ':' :: (nm ++ ':' :: (num ++ '>' :: post)) := by
      simp
    rw [hshape]
    exact h
  have hle : post.length ≤
      (((if anim then ['a'] else []) ++ ':' :: (nm ++ ':' :: (num ++ ['>']))) ++ post).length := by
    simp only [List.length_append]
    omega
  have hshape2 : emojiTag anim nm num ++ post
      = '<' :: (((if anim then ['a'] else []) ++ ':' :: (nm ++ ':' :: (num ++ ['>']))) ++ post) := by
    simp [emojiTag]
  rw [hshape2]
  unfold reSub
  rw [show ('<' :: (((if anim then ['a'] else []) ++ ':' :: (nm ++ ':' :: (num ++ ['>']))) ++ post)).length
      = (((if anim then ['a'] else []) ++ ':' :: (nm ++ ':' :: (num ++ ['>']))) ++ post).length + 1
      from rfl]
  simp only [reSubFuel, if_true]
  rw [hpt]
  exact congrArg (fun x => ':' :: (nm ++ ':' :: x))
    (reSubFuel_congr _ post.length post hle (le_refl _))

/-! ### Chunking lemmas -/

theorem chunksFuel_flatten {α : Type} : ∀ (f : Nat) (l : List α), l.length ≤ f →
    (chunksFuel f l).flatten = l := by
  intro f
  induction f with
  | zero =>
    intro l h
    have hl : l = [] := List.length_eq_zero.mp (Nat.le_zero.mp h)
    subst hl
    rfl
  | succ g ih =>
    intro l h
    cases l with
    | nil => rfl
    | cons a rest =>
      simp only [chunksFuel, List.flatten_cons]
      rw [ih (rest.drop 9) (by simp only [List.length_drop]; simp at h; omega)]
      rw [show rest.drop 9 = (a :: rest).drop 10 from rfl]
      exact List.take_append_drop 10 (a :: rest)

theorem chunks10_flatten {α : Type} (l : List α) : (chunks10 l).flatten = l :=
  chunksFuel_flatten l.length l (le_refl _)

theorem chunksFuel_length {α : Type} : ∀ (f : Nat) (l : List α), l.length ≤ f →
    (chunksFuel f l).length = (l.length + 9) / 10 := by
  intro f
  induction f with
  | zero =>
    intro l h
    have hl : l = [] := List.length_eq_zero.mp (Nat.le_zero.mp h)
    subst hl
    simp [chunksFuel]
  | succ g ih =>
    intro l h
    cases l with
    | nil => simp [chunksFuel]
    | cons a rest =>
      simp only [chunksFuel, List.length_cons]
      rw [ih (rest.drop 9) (by simp only [List.length_drop]; simp at h; omega)]
      simp only [List.length_drop]
      omega

theorem chunks10_length {α : Type} (l : List α) : (chunks10 l).length = (l.length + 9) / 10 :=
  chunksFuel_length l.length l (le_refl _)

theorem chunksFuel_mem_length {α : Type} : ∀ (f : Nat) (l : List α) (c : List α),
    c ∈ chunksFuel f l → c.length ≤ 10 := by
  intro f
  induction f with
  | zero => intro l c h; cases h
  | succ g ih =>
    intro l c h
    cases l with
    | nil => cases h
    | cons a rest =>
      simp only [chunksFuel] at h
      rcases List.mem_cons.mp h with rfl | h2
      · rw [List.length_take]
        exact min_le_left 10 _
      · exact ih _ c h2

theorem chunks10_mem_length {α : Type} (l : List α) (c : List α) (h : c ∈ chunks10 l) :
    c.length ≤ 10 :=
  chunksFuel_mem_length l.length l c h

/-! ### Batch-planner lemmas -/

theorem planBatches_eq {F E : Type} (m : List Char) (files : List F) (embeds : List E) :
    planBatches m files embeds =
      ⟨if files.isEmpty && embeds.isEmpty then some (truncateMsg m)
        else contentOpt (truncateMsg m),
       files.take 10, embeds.take 10⟩ ::
      ((chunks10 (files.drop 10)).map (fun fs => ⟨none, fs, []⟩) ++
       (chunks10 (embeds.drop 10)).map (fun es => ⟨none, [], es⟩)) := by
  unfold planBatches
  by_cases h : (files.isEmpty && embeds.isEmpty) = true
  · have hf : files = [] := List.isEmpty_iff.mp (Bool.and_eq_true_iff.mp h).1
    have he : embeds = [] := List.isEmpty_iff.mp (Bool.and_eq_true_iff.mp h).2
    subst hf he
    simp [h, chunks10, chunksFuel]
  · simp only [h, if_false]
    by_cases h10 : files.length ≤ 10
    · have ht : files.take 10 = files := List.take_of_length_le h10
      have hd : files.drop 10 = [] := List.drop_eq_nil_of_le h10
      simp [h10, ht, hd, chunks10, chunksFuel]
    · simp [h10]

theorem planBatches_files_mem {F E : Type} {m : List Char} {files : List F} {embeds : List E}
    {b : Batch F E} {f : F} (hb : b ∈ planBatches m files embeds) (hf : f ∈ b.files) :
    f ∈ files := by
  rw [planBatches_eq] at hb
  rcases List.mem_cons.mp hb with rfl | hb2
  · exact List.take_subset 10 files hf
  · rcases List.mem_append.mp hb2 with hb3 | hb3
    · rcases List.mem_map.mp hb3 with ⟨fs, hfs, rfl⟩
      have hmem : f ∈ (chunks10 (files.drop 10)).flatten := List.mem_flatten.mpr ⟨fs, hfs, hf⟩
      rw [chunks10_flatten] at hmem
      exact List.drop_subset 10 files hmem
    · rcases List.mem_map.mp hb3 with ⟨es, _, rfl⟩
      cases hf

/-! ### Dispatch lemmas -/

theorem sendsFrom_mem {β : Type} {fail1 : Nat → Bool} : ∀ {i : Nat} {bs : List β} {b : β},
    b ∈ sendsFrom fail1 i bs → b ∈ bs := by
  intro i bs
  induction bs generalizing i with
  | nil => intro b h; cases h
  | cons hd tl ih =>
    intro b h
    simp only [sendsFrom] at h
    rcases List.mem_cons.mp h with rfl | h2
    · exact List.mem_cons_self _ _
    · by_cases hf : fail1 i = true
      · rw [if_pos hf] at h2
        cases h2
      · rw [if_neg hf] at h2
        exact List.mem_cons_of_mem _ (ih h2)

theorem sendsFrom_take {β : Type} (fail1 : Nat → Bool) : ∀ (bs : List β) (i k : Nat),
    (∀ j, j < k → fail1 (i + j) = false) → fail1 (i + k) = true → k < bs.length →
    sendsFrom fail1 i bs = bs.take (k + 1) := by
  intro bs
  induction bs with
  | nil => intro i k _ _ h; cases h
  | cons b rest ih =>
    intro i k hbefore hat hlen
    cases k with
    | zero =>
      simp only [sendsFrom]
      rw [if_pos (by simpa using hat)]
      simp
    | succ k2 =>
      have h0 : fail1 i = false := by simpa using hbefore 0 (Nat.succ_pos k2)
      simp only [sendsFrom]
      rw [if_neg (by simp [h0])]
      rw [ih (i + 1) k2 ?_ ?_ ?_]
      · simp
      · intro j hj
        have h := hbefore (j + 1) (by omega)
        rw [show i + 1 + j = i + (j + 1) from by omega]
        exact h
      · rw [show i + 1 + k2 = i + (k2 + 1) from by omega]
        exact hat
      · simpa using Nat.lt_of_succ_lt_succ hlen

theorem sendsFrom_singleton {β : Type} (fail1 : Nat → Bool) (i : Nat) (b : β) :
    sendsFrom fail1 i [b] = [b] := by
  simp only [sendsFrom]
  split <;> rfl

/-! ### Download lemmas -/

theorem downloadAll_fst (http : List Char → Option Bytes) : ∀ (atts : List Attachment),
    (downloadAll http atts).1 = atts.filterMap (download_attachment http) := by
  intro atts
  induction atts with
  | nil => rfl
  | cons a rest ih =>
    simp only [downloadAll]
    cases h : download_attachment http a <;> simp [h, ih, List.filterMap_cons]

theorem downloadAll_snd (http : List Char → Option Bytes) : ∀ (atts : List Attachment),
    (downloadAll http atts).2 = (atts.filter (fun a => (attachmentUrl a).isSome)).length := by
  intro atts
  induction atts with
  | nil => rfl
  | cons a rest ih =>
    simp only [downloadAll, List.filter_cons]
    cases h : download_attachment http a <;>
      cases hu : (attachmentUrl a).isSome <;>
        simp [h, hu, ih] <;> omega

theorem downloadAll_snd_le (http : List Char → Option Bytes) (atts : List Attachment) :
    (downloadAll http atts).2 ≤ atts.length := by
  rw [downloadAll_snd]
  exact List.length_filter_le _ atts

theorem planBatches_no_files_embeds {F E : Type} (m : List Char) :
    planBatches m ([] : List F) ([] : List E) = [⟨some (truncateMsg m), [], []⟩] := by
  rw [planBatches_eq]
  simp [chunks10, chunksFuel]

theorem truncateMsg_long (m : List Char) (h : 2000 < m.length) :
    truncateMsg m = m.take 1997 ++ ['.', '.', '.'] := by
  unfold truncateMsg
  rw [if_pos h]

/-! ### Claim theorems -/

/-- C1 (the code evaluated at the failing input): a content of 2001 characters
is not split into ceil(2001/2000) = 2 lossless chunks; the code produces a
single batch whose text is the first 1997 characters plus an ellipsis, so the
concatenation of all text chunks has length 2000 and differs from the
original content. -/
theorem long_content_truncated_not_split :
    planBatches (List.replicate 2001 'a') ([] : List DFile) ([] : List Nat)
      = [⟨some (List.replicate 1997 'a' ++ ['.', '.', '.']), [], []⟩]
    ∧ ((planBatches (List.replicate 2001 'a') ([] : List DFile) ([] : List Nat)).filterMap
        (fun b => b.text)).flatten.length = 2000
    ∧ ((planBatches (List.replicate 2001 'a') ([] : List DFile) ([] : List Nat)).filterMap
        (fun b => b.text)).flatten ≠ List.replicate 2001 'a'
    ∧ ((List.replicate 2001 'a').length + 1999) / 2000 = 2
    ∧ (planBatches (List.replicate 2001 'a') ([] : List DFile) ([] : List Nat)).length = 1 := by
  have htr : truncateMsg (List.replicate 2001 'a') = List.replicate 1997 'a' ++ ['.', '.', '.'] := by
    rw [truncateMsg_long _ (by simp), List.take_replicate]
    norm_num
  have hplan : planBatches (List.replicate 2001 'a') ([] : List DFile) ([] : List Nat)
      = [⟨some (List.replicate 1997 'a' ++ ['.', '.', '.']), [], []⟩] := by
    rw [planBatches_no_files_embeds, htr]
  have hflat : ((planBatches (List.replicate 2001 'a') ([] : List DFile)
      ([] : List Nat)).filterMap (fun b => b.text)).flatten
        = List.replicate 1997 'a' ++ ['.', '.', '.'] := by
    rw [hplan]
    simp
  refine ⟨hplan, ?_, ?_, by norm_num, by rw [hplan]; rfl⟩
  · rw [hflat]
    simp
  · rw [hflat]
    intro hcontra
    have h1 := congrArg List.length hcontra
    simp at h1

/-- C3 counterexample: for a content of 2001 characters the first batch does
not carry the first text chunk (the first 2000 characters): the code puts a
truncated string ending in an ellipsis there instead. -/
theorem first_batch_text_not_first_chunk :
    ((planBatches (List.replicate 2001 'a') ([] : List DFile) ([] : List Nat)).head?.map
        (fun b => b.text))
      = some (some (List.replicate 1997 'a' ++ ['.', '.', '.']))
    ∧ (List.replicate 1997 'a' ++ ['.', '.', '.']) ≠ (List.replicate 2001 'a').take 2000 := by
  have htr : truncateMsg (List.replicate 2001 'a') = List.replicate 1997 'a' ++ ['.', '.', '.'] := by
    rw [truncateMsg_long _ (by simp), List.take_replicate]
    norm_num
  constructor
  · rw [planBatches_no_files_embeds, htr]
    rfl
  · rw [List.take_replicate]
    norm_num
    intro hcontra
    have h1 := congrArg (fun l : List Char => l[1997]?) hcontra
    simp only [List.getElem?_append_right, List.length_replicate, Nat.le_refl,
      List.getElem?_replicate] at h1
    simp at h1

/-- C3 amended: for every input, the planned batches are exactly a first batch
carrying the code's message text (the whole message when there are no files
and no embeds, otherwise the truncated text or `None` when it is blank), the
first 10 files and the first 10 embeds, followed by files-only batches of up
to 10 of the remaining files in order, followed by exactly
ceil(max(E - 10, 0) / 10) embeds-only batches of up to 10 of the remaining
embeds in order; every file and embed appears exactly once in original
relative order. -/
theorem batch_plan_structure {F E : Type} (m : List Char) (files : List F) (embeds : List E) :
    planBatches m files embeds =
      ⟨if files.isEmpty && embeds.isEmpty then some (truncateMsg m)
        else contentOpt (truncateMsg m), files.take 10, embeds.take 10⟩ ::
      ((chunks10 (files.drop 10)).map (fun fs => ⟨none, fs, []⟩) ++
       (chunks10 (embeds.drop 10)).map (fun es => ⟨none, [], es⟩))
    ∧ files.take 10 ++ (chunks10 (files.drop 10)).flatten = files
    ∧ embeds.take 10 ++ (chunks10 (embeds.drop 10)).flatten = embeds
    ∧ (chunks10 (embeds.drop 10)).length = (embeds.length - 10 + 9) / 10
    ∧ (∀ fs ∈ chunks10 (files.drop 10), fs.length ≤ 10)
    ∧ (∀ es ∈ chunks10 (embeds.drop 10), es.length ≤ 10) := by
  refine ⟨planBatches_eq m files embeds, ?_, ?_, ?_, ?_, ?_⟩
  · rw [chunks10_flatten]
    exact List.take_append_drop 10 files
  · rw [chunks10_flatten]
    exact List.take_append_drop 10 embeds
  · rw [chunks10_length]
    simp [List.length_drop]
  · intro fs hfs
    exact chunks10_mem_length _ fs hfs
  · intro es hes
    exact chunks10_mem_length _ es hes

/-- Witness for C3: 25 embeds yield ceil((25-10)/10) = 2 embeds-only batches. -/
theorem batch_plan_structure_witness :
    (chunks10 ((List.replicate 25 (0 : Nat)).drop 10)).length
      = ((List.replicate 25 (0 : Nat)).length - 10 + 9) / 10 :=
  (batch_plan_structure ['x'] ([] : List DFile) (List.replicate 25 (0 : Nat))).2.2.2.1

/-- C6: for every sequence of attachment references, at most one fetch attempt
per reference occurs (one per reference that carries a url); a failed
reference is skipped without aborting the rest; the fetched files are exactly
the successful downloads in reference order. -/
theorem download_attempts_and_order (http : List Char → Option Bytes) (atts : List Attachment) :
    (downloadAll http atts).2 ≤ atts.length
    ∧ (downloadAll http atts).2 = (atts.filter (fun a => (attachmentUrl a).isSome)).length
    ∧ (downloadAll http atts).1 = atts.filterMap (download_attachment http)
    ∧ (downloadAll http atts).1.length ≤ atts.length
    ∧ (∀ (pre post : List Attachment) (a : Attachment),
        download_attachment http a = none →
        (downloadAll http (pre ++ a :: post)).1
          = (downloadAll http pre).1 ++ (downloadAll http post).1) := by
  refine ⟨downloadAll_snd_le http atts, downloadAll_snd http atts, downloadAll_fst http atts,
    ?_, ?_⟩
  · rw [downloadAll_fst]
    exact List.length_filterMap_le _ _
  · intro pre post a ha
    rw [downloadAll_fst, downloadAll_fst, downloadAll_fst, List.filterMap_append,
      List.filterMap_cons_none ha]

/-- Witness for C6: a failing middle reference is skipped, the other two are
fetched in order. -/
theorem download_attempts_and_order_witness :
    download_attachment (fun u => if u = ['x'] then none else some [7])
        (Attachment.str ['x']) = none
    ∧ (downloadAll (fun u => if u = ['x'] then none else some [7])
        ([Attachment.str ['p']] ++ Attachment.str ['x'] :: [Attachment.str ['q']])).1
      = (downloadAll (fun u => if u = ['x'] then none else some [7]) [Attachment.str ['p']]).1
        ++ (downloadAll (fun u => if u = ['x'] then none else some [7])
            [Attachment.str ['q']]).1 :=
  ⟨by decide,
   (download_attempts_and_order (fun u => if u = ['x'] then none else some [7]) []).2.2.2.2
     [Attachment.str ['p']] [Attachment.str ['q']] (Attachment.str ['x']) (by decide)⟩

/-- C7: every substring of the two-part tag form, a `<`, an optional animated
flag `a`, a `:`, a word-character name, a `:`, a numeric id and a `>`, is
rewritten to the name between colons, and all text not part of such a tag is
passed through unchanged. -/
theorem emoji_rewrite :
    (∀ (pre nm num post : List Char) (anim : Bool), '<' ∉ pre → nm ≠ [] →
        (∀ c ∈ nm, isWordChar c = true) → num ≠ [] →
        (∀ c ∈ num, Char.isDigit c = true) →
        reSub (pre ++ emojiTag anim nm num ++ post) = pre ++ ':' :: (nm ++ ':' :: reSub post))
    ∧ (∀ s : List Char, '<' ∉ s → reSub s = s) := by
  constructor
  · intro pre nm num post anim hpre hnm hw hnum hd
    rw [List.append_assoc, reSub_append_of_not_mem pre _ hpre,
      reSub_tag anim nm num post hnm hw hnum hd]
  · exact reSub_of_not_mem

/-- Witness for C7 at the spec's concrete example. -/
theorem emoji_rewrite_witness :
    ("wave".data ≠ [] ∧ "123456789012345".data ≠ [] ∧ ('<' : Char) ∉ ([] : List Char))
    ∧ reSub "<a:wave:123456789012345>".data = ":wave:".data := by
  refine ⟨by decide, ?_⟩
  have h := emoji_rewrite.1 [] "wave".data "123456789012345".data [] true (by decide)
    (by decide) (by decide) (by decide) (by decide)
  exact h

/-- C8: the normalizer parses the timestamp with `fromisoformat` after
rewriting `Z` to `+00:00`; on success it formats the parsed value, on any
parse failure it uses the original raw string verbatim, and in particular the
input not-a-date yields itself. -/
theorem timestamp_parse_fallback :
    (∀ ts : List Char, fromisoformat (replaceZ ts) = none → pyFormattedTime ts = ts)
    ∧ (∀ (ts : List Char) (dt : PyDateTime), fromisoformat (replaceZ ts) = some dt →
        pyFormattedTime ts = strftimeDisplay dt)
    ∧ pyFormattedTime "not-a-date".data = "not-a-date".data := by
  refine ⟨?_, ?_, by decide⟩
  · intro ts h
    unfold pyFormattedTime
    rw [h]
  · intro ts dt h
    unfold pyFormattedTime
    rw [h]

/-- Witness for C8 at a malformed timestamp. -/
theorem timestamp_parse_fallback_witness :
    fromisoformat (replaceZ "yesterday evening".data) = none
    ∧ pyFormattedTime "yesterday evening".data = "yesterday evening".data :=
  ⟨by decide, timestamp_parse_fallback.1 "yesterday evening".data (by decide)⟩

/-- C9 counterexample: a record missing every field defaults the timestamp to
the string N/A, not to the empty string. -/
theorem missing_timestamp_defaults_na :
    eventTimestamp (⟨none, none, none, none, none, none⟩ : RawEvent Nat) = "N/A".data
    ∧ "N/A".data ≠ ([] : List Char) := by
  exact ⟨rfl, by decide⟩

/-- C9 amended: at the ingestion boundary a missing timestamp defaults to the
string N/A, missing channel name and author default to the string Unknown,
missing content defaults to the empty string and missing attachments and
embeds default to empty sequences (no count field exists at this boundary). -/
theorem missing_fields_defaults {ES : Type} (ev : RawEvent ES) :
    (ev.timestamp = none → eventTimestamp ev = "N/A".data)
    ∧ (ev.channel_name = none → eventChannelName ev = "Unknown".data)
    ∧ (ev.author = none → eventAuthor ev = "Unknown".data)
    ∧ (ev.content = none → eventContent ev = [])
    ∧ (ev.attachments = none → eventAttachments ev = [])
    ∧ (ev.embeds = none → eventEmbeds ev = []) := by
  refine ⟨?_, ?_, ?_, ?_, ?_, ?_⟩ <;> intro h <;>
    simp [eventTimestamp, eventChannelName, eventAuthor, eventContent, eventAttachments,
      eventEmbeds, h]

/-- Witness for C9 (amended) at an all-missing record. -/
theorem missing_fields_defaults_witness :
    (⟨none, none, none, none, none, none⟩ : RawEvent Nat).channel_name = none
    ∧ eventChannelName (⟨none, none, none, none, none, none⟩ : RawEvent Nat) = "Unknown".data :=
  ⟨rfl, (missing_fields_defaults (⟨none, none, none, none, none, none⟩ : RawEvent Nat)).2.1 rfl⟩

theorem send_to_discord_channels_eq {ES E : Type} (http : List Char → Option Bytes)
    (buildEmbed : ES → Option E) (resolve : Nat → Bool) (fail : Nat → Nat → Bool)
    (channels : List Nat) (hne : channels ≠ []) (msg : List Char) (atts : List Attachment)
    (especs : List ES) :
    send_to_discord_channels http buildEmbed resolve fail channels msg atts especs
      = ⟨(downloadAll http atts).2,
         (channels.filter (fun c => resolve c)).map
           (fun c => (c, sendsFrom (fail c) 0
             (planBatches msg (downloadAll http atts).1 (especs.filterMap buildEmbed))))⟩ := by
  unfold send_to_discord_channels
  rw [if_neg (fun hh => hne (List.isEmpty_iff.mp hh))]
  rfl

/-- C2: attachments are fetched exactly once per relay operation: the number
of fetch attempts is one per reference carrying a url, hence at most the
number of references, and it is the same for any two nonempty destination
lists; every file occurring in any destination's sends comes from the single
downloaded list (the shared byte buffers). -/
theorem attachments_fetched_once {ES E : Type} (http : List Char → Option Bytes)
    (buildEmbed : ES → Option E) (resolve : Nat → Bool) (fail : Nat → Nat → Bool)
    (channels channels' : List Nat) (hne : channels ≠ []) (hne' : channels' ≠ [])
    (msg : List Char) (atts : List Attachment) (especs : List ES) :
    (send_to_discord_channels http buildEmbed resolve fail channels msg atts
        especs).fetchAttempts
      = (atts.filter (fun a => (attachmentUrl a).isSome)).length
    ∧ (send_to_discord_channels http buildEmbed resolve fail channels msg atts
        especs).fetchAttempts ≤ atts.length
    ∧ (send_to_discord_channels http buildEmbed resolve fail channels msg atts
        especs).fetchAttempts
      = (send_to_discord_channels http buildEmbed resolve fail channels' msg atts
        especs).fetchAttempts
    ∧ (∀ p ∈ (send_to_discord_channels http buildEmbed resolve fail channels msg atts
        especs).perChannel, ∀ b ∈ p.2, ∀ f ∈ b.files, f ∈ (downloadAll http atts).1) := by
  rw [send_to_discord_channels_eq http buildEmbed resolve fail channels hne msg atts especs,
    send_to_discord_channels_eq http buildEmbed resolve fail channels' hne' msg atts especs]
  refine ⟨downloadAll_snd http atts, downloadAll_snd_le http atts, rfl, ?_⟩
  intro p hp b hb f hf
  rcases List.mem_map.mp hp with ⟨d, _, rfl⟩
  exact planBatches_files_mem (sendsFrom_mem hb) hf

/-- Witness for C2: the fetch count is unchanged when going from one to two
destinations. -/
theorem attachments_fetched_once_witness :
    (send_to_discord_channels (fun _ => some [1]) (fun e : Nat => some e) (fun _ => true)
        (fun _ _ => false) [3] ['m'] [Attachment.str ['u']] ([] : List Nat)).fetchAttempts
      = (send_to_discord_channels (fun _ => some [1]) (fun e : Nat => some e) (fun _ => true)
        (fun _ _ => false) [4, 5] ['m'] [Attachment.str ['u']] ([] : List Nat)).fetchAttempts :=
  (attachments_fetched_once (fun _ => some [1]) (fun e : Nat => some e) (fun _ => true)
    (fun _ _ => false) [3] [4, 5] (by decide) (by decide) ['m'] [Attachment.str ['u']]
    ([] : List Nat)).2.2.1

/-- C4 counterexample: with 12 attachments there are 2 planned batches; a
transport failure on destination 1's first send leaves destination 1 with only
1 attempted send (the remaining batch is not sent to it) while destination 2
receives both. -/
theorem send_failure_aborts_remaining_batches :
    ((send_to_discord_channels (fun _ => some [0]) (fun e : Nat => some e) (fun _ => true)
        (fun d j => decide (d = 1 ∧ j = 0)) [1, 2] ['m']
        (List.replicate 12 (Attachment.str ['u'])) ([] : List Nat)).perChannel.map
      (fun p => (p.1, p.2.length))) = [(1, 1), (2, 2)]
    ∧ (planBatches ['m']
        (downloadAll (fun _ => some [0]) (List.replicate 12 (Attachment.str ['u']))).1
        (([] : List Nat).filterMap some)).length = 2 := by
  exact ⟨by decide, by decide⟩

/-- C4 amended: a failure while sending one batch aborts the remaining batches
for that same destination (the failing send is the last one attempted there),
but does not affect which batches are sent to any other destination. -/
theorem send_failure_isolation {ES E : Type} (http : List Char → Option Bytes)
    (buildEmbed : ES → Option E) (resolve : Nat → Bool) (fail fail' : Nat → Nat → Bool)
    (channels : List Nat) (msg : List Char) (atts : List Attachment) (especs : List ES)
    (c i : Nat) (hdiff : ∀ d, d ≠ c → fail d = fail' d)
    (hbefore : ∀ j, j < i → fail c j = false) (hat : fail c i = true) :
    (∀ p ∈ (send_to_discord_channels http buildEmbed resolve fail channels msg atts
        especs).perChannel, p.1 ≠ c →
      p ∈ (send_to_discord_channels http buildEmbed resolve fail' channels msg atts
        especs).perChannel)
    ∧ (∀ p ∈ (send_to_discord_channels http buildEmbed resolve fail channels msg atts
        especs).perChannel, p.1 = c →
      i < (planBatches msg (downloadAll http atts).1 (especs.filterMap buildEmbed)).length →
      p.2 = (planBatches msg (downloadAll http atts).1
        (especs.filterMap buildEmbed)).take (i + 1)) := by
  rcases eq_or_ne channels [] with rfl | hne
  · refine ⟨?_, ?_⟩ <;> intro p hp <;> cases hp
  · rw [send_to_discord_channels_eq http buildEmbed resolve fail channels hne msg atts especs,
      send_to_discord_channels_eq http buildEmbed resolve fail' channels hne msg atts especs]
    constructor
    · intro p hp hpc
      rcases List.mem_map.mp hp with ⟨d, hd, rfl⟩
      have hdc : d ≠ c := hpc
      rw [hdiff d hdc]
      exact List.mem_map_of_mem _ hd
    · intro p hp hpc hlen
      rcases List.mem_map.mp hp with ⟨d, _, rfl⟩
      have hdc : d = c := hpc
      subst hdc
      exact sendsFrom_take (fail d) _ 0 i
        (fun j hj => by rw [Nat.zero_add]; exact hbefore j hj)
        (by rw [Nat.zero_add]; exact hat) hlen

/-- Witness for C4 (amended): destination 2's sends are unchanged when
destination 1's first send fails. -/
theorem send_failure_isolation_witness :
    ((2 : Nat), sendsFrom ((fun _ _ => false) 2) 0
        (planBatches ['m']
          (downloadAll (fun _ => some [0]) (List.replicate 12 (Attachment.str ['u']))).1
          (([] : List Nat).filterMap some)))
      ∈ (send_to_discord_channels (fun _ => some [0]) (fun e : Nat => some e) (fun _ => true)
          (fun _ _ => false) [1, 2] ['m'] (List.replicate 12 (Attachment.str ['u']))
          ([] : List Nat)).perChannel :=
  (send_failure_isolation (fun _ => some [0]) (fun e : Nat => some e) (fun _ => true)
      (fun d j => decide (d = 1 ∧ j = 0)) (fun _ _ => false) [1, 2] ['m']
      (List.replicate 12 (Attachment.str ['u'])) ([] : List Nat) 1 0
      (by intro d hd; funext j; simp [hd]) (by intro j hj; omega) (by decide)).1
    ((2 : Nat), sendsFrom ((fun _ _ => false) 2) 0
      (planBatches ['m']
        (downloadAll (fun _ => some [0]) (List.replicate 12 (Attachment.str ['u']))).1
        (([] : List Nat).filterMap some)))
    (by decide) (by decide)

/-- C5 counterexample: an inbound event with empty content, no attachments and
no embeds still produces exactly one send to the configured destination (the
claim says none should occur). -/
theorem empty_event_still_sends :
    ((receiveMessageRelay (fun _ => none) (fun e : Nat => some e) (fun _ => true)
        (fun _ _ => false) [7]
        (⟨none, none, none, some [], some [], some []⟩ : RawEvent Nat)).perChannel.map
      (fun p => p.2.length)) = [1]
    ∧ (1 : Nat) ≠ 0 := by
  exact ⟨by decide, by decide⟩

/-- C5 amended: for an inbound event with empty content, no attachments and no
embeds, each resolved destination receives exactly one batch, a text-only
batch carrying the formatted header line. -/
theorem empty_event_one_header_batch {ES E : Type} (ev : RawEvent ES)
    (http : List Char → Option Bytes) (buildEmbed : ES → Option E) (resolve : Nat → Bool)
    (fail : Nat → Nat → Bool) (channels : List Nat) (hc : eventContent ev = [])
    (ha : eventAttachments ev = []) (he : eventEmbeds ev = []) :
    ∀ p ∈ (receiveMessageRelay http buildEmbed resolve fail channels ev).perChannel,
      p.2 = [⟨some (truncateMsg (formattedMessage ev)), [], []⟩] := by
  intro p hp
  unfold receiveMessageRelay at hp
  by_cases hch : channels.isEmpty = true
  · rw [if_pos hch] at hp
    cases hp
  · rw [if_neg hch] at hp
    have hne : channels ≠ [] := fun hh => hch (List.isEmpty_iff.mpr hh)
    rw [send_to_discord_channels_eq http buildEmbed resolve fail channels hne
      (formattedMessage ev) (eventAttachments ev) (eventEmbeds ev), ha, he] at hp
    rcases List.mem_map.mp hp with ⟨d, _, rfl⟩
    show sendsFrom (fail d) 0 (planBatches (formattedMessage ev)
      (downloadAll http []).1 (([] : List ES).filterMap buildEmbed)) = _
    rw [show (downloadAll http []).1 = ([] : List DFile) from rfl,
      show (([] : List ES).filterMap buildEmbed) = ([] : List E) from rfl,
      planBatches_no_files_embeds, sendsFrom_singleton]

/-- Witness for C5 (amended) at a concrete empty event and destination. -/
theorem empty_event_one_header_batch_witness :
    ([(⟨some "`[N/A] #Unknown`\n".data, [], []⟩ : Batch DFile Nat)] : List (Batch DFile Nat))
      = [⟨some (truncateMsg (formattedMessage
          (⟨none, none, none, some [], some [], some []⟩ : RawEvent Nat))), [], []⟩] :=
  empty_event_one_header_batch (⟨none, none, none, some [], some [], some []⟩ : RawEvent Nat)
    (fun _ => none) (fun e : Nat => some e) (fun _ => true) (fun _ _ => false) [3]
    rfl rfl rfl
    ((3 : Nat), [(⟨some "`[N/A] #Unknown`\n".data, [], []⟩ : Batch DFile Nat)])
    (by decide)

/-- C10: the text handed to dispatch is the backtick-wrapped formatted time
and channel name, a newline, then the emoji-rewritten content; it is never
empty (before or after the length cap), and an event with empty content, no
attachments and no embeds still produces a send at every resolved
destination. -/
theorem dispatched_text_wrapped {ES : Type} (ev : RawEvent ES) :
    formattedMessage ev
      = "`[".data ++ pyFormattedTime (eventTimestamp ev) ++ "] #".data ++ eventChannelName ev
        ++ "`\n".data ++ reSub (eventContent ev)
    ∧ formattedMessage ev ≠ []
    ∧ truncateMsg (formattedMessage ev) ≠ []
    ∧ (∀ {E : Type} (http : List Char → Option Bytes) (buildEmbed : ES → Option E)
        (resolve : Nat → Bool) (fail : Nat → Nat → Bool) (channels : List Nat) (c : Nat),
        eventContent ev = [] → eventAttachments ev = [] → eventEmbeds ev = [] →
        c ∈ channels → resolve c = true →
        (c, [(⟨some (truncateMsg (formattedMessage ev)), [], []⟩ : Batch DFile E)])
          ∈ (receiveMessageRelay http buildEmbed resolve fail channels ev).perChannel) := by
  have hnenil : formattedMessage ev ≠ [] := by
    intro hh
    have h1 : ("`[".data : List Char) = [] :=
      (List.append_eq_nil.mp (List.append_eq_nil.mp (List.append_eq_nil.mp
        (List.append_eq_nil.mp (List.append_eq_nil.mp hh).1).1).1).1).1
    cases h1
  refine ⟨rfl, hnenil, ?_, ?_⟩
  · unfold truncateMsg
    by_cases hlong : (formattedMessage ev).length > 2000
    · rw [if_pos hlong]
      intro hh
      have h2 := (List.append_eq_nil.mp hh).2
      cases h2
    · rw [if_neg hlong]
      exact hnenil
  · intro E http buildEmbed resolve fail channels c hc ha he hmem hres
    have hne : channels ≠ [] := List.ne_nil_of_mem hmem
    unfold receiveMessageRelay
    rw [if_neg (fun hh => hne (List.isEmpty_iff.mp hh))]
    rw [send_to_discord_channels_eq http buildEmbed resolve fail channels hne
      (formattedMessage ev) (eventAttachments ev) (eventEmbeds ev), ha, he]
    have hval : ((c, [(⟨some (truncateMsg (formattedMessage ev)), [], []⟩ : Batch DFile E)])
          : Nat × List (Batch DFile E))
        = (c, sendsFrom (fail c) 0 (planBatches (formattedMessage ev)
            (downloadAll http []).1 (([] : List ES).filterMap buildEmbed))) := by
      rw [show (downloadAll http []).1 = ([] : List DFile) from rfl,
        show (([] : List ES).filterMap buildEmbed) = ([] : List E) from rfl,
        planBatches_no_files_embeds, sendsFrom_singleton]
    rw [hval]
    exact List.mem_map_of_mem _ (List.mem_filter.mpr ⟨hmem, hres⟩)

/-- Witness for C10: the empty event's header-only batch is dispatched to the
resolved destination 5. -/
theorem dispatched_text_wrapped_witness :
    ((5 : Nat), [(⟨some (truncateMsg (formattedMessage
        (⟨none, none, none, some [], some [], some []⟩ : RawEvent Nat))), [], []⟩
          : Batch DFile Nat)])
      ∈ (receiveMessageRelay (fun _ => none) (fun e : Nat => some e) (fun _ => true)
          (fun _ _ => false) [5]
          (⟨none, none, none, some [], some [], some []⟩ : RawEvent Nat)).perChannel :=
  (dispatched_text_wrapped (⟨none, none, none, some [], some [], some []⟩ : RawEvent Nat)).2.2.2
    (fun _ => none) (fun e : Nat => some e) (fun _ => true) (fun _ _ => false) [5] 5
    rfl rfl rfl (by decide) rfl

end NormalBot
